import Mathlib

set_option maxHeartbeats 1000000
set_option maxRecDepth 100000

/- Shallow embedding of the SimpleImage2ASCII repository (image_splitter.py,
   ascii_matcher.py, main.py).

   Grayscale images are pixel grids of uint8 values (`Fin 256`); density maps
   are rational-valued grids (float32 arithmetic modelled exactly over `ℚ`).
   External collaborators (the PIL image decoder, font rasterizer and Lanczos
   resampler) enter as explicit function parameters; every piece of arithmetic
   that the repository's own code performs is translated directly from the
   source. -/

/-- A decoded grayscale image: an `h × w` grid of uint8 pixels (PIL mode "L").
`px i j` is the pixel at row `i`, column `j`. -/
structure GrayImg where
  h : ℕ
  w : ℕ
  px : ℕ → ℕ → Fin 256

/-- A numpy float array of shape `(h, w)` holding density values
(float32 arithmetic modelled exactly over `ℚ`). -/
structure Arr where
  h : ℕ
  w : ℕ
  data : ℕ → ℕ → ℚ

/-- numpy `.shape` of a 2-D array: `(rows, cols)`. -/
def Arr.shape (a : Arr) : ℕ × ℕ := (a.h, a.w)

/-- `arr = np.asarray(im, dtype=np.float32) / 255.0; arr = 1.0 - arr` —
the normalization-and-ink-inversion step shared verbatim by
`render_char_template` (ascii_matcher.py lines 42-44) and `_image_to_array`
(ascii_matcher.py lines 72-73). -/
def normalizeInvert (im : GrayImg) : Arr :=
  ⟨im.h, im.w, fun i j => 1 - ((im.px i j : ℕ) : ℚ) / 255⟩

/-- PIL `im.crop((x, y, x + wc, y + hr))` (image_splitter.py line 47): the
cropped image has width `wc`, height `hr`, and reads the source shifted by
`(x, y)`. -/
def GrayImg.crop (im : GrayImg) (x y wc hr : ℕ) : GrayImg :=
  ⟨hr, wc, fun i j => im.px (y + i) (x + j)⟩

/-- One cell of the grid returned by `split_grid_from_path`
(image_splitter.py lines 46-48): the dict with keys "image" (the cropped
PIL image), "box" (the tuple `(x, y, w_c, h_r)`), "row" and "col". -/
structure Tile where
  image : GrayImg
  box : ℕ × ℕ × ℕ × ℕ
  row : ℕ
  col : ℕ

/-- Python exceptions raised by `split_grid_from_path`
(image_splitter.py lines 25-28), with their message strings. -/
inductive SplitError where
  | valueError (msg : String)
  | fileNotFoundError (msg : String)
deriving DecidableEq

/-- Inner loop of `split_grid_from_path` (image_splitter.py lines 44-50):
walks `columns` iterations with loop counter `c` and accumulating cursor `x`;
each iteration computes `w_c = col_base + (1 if c < col_rem else 0)`, crops the
tile and advances `x` by `w_c`.  The first argument is the number of remaining
iterations. -/
def buildRow (im : GrayImg) (w columns y hr r : ℕ) : ℕ → ℕ → ℕ → List Tile
  | 0, _, _ => []
  | n + 1, c, x =>
    let wc := w / columns + if c < w % columns then 1 else 0
    { image := im.crop x y wc hr, box := (x, y, wc, hr), row := r, col := c }
      :: buildRow im w columns y hr r n (c + 1) (x + wc)

/-- Outer loop of `split_grid_from_path` (image_splitter.py lines 39-52):
walks `rows` iterations with loop counter `r` and accumulating cursor `y`;
each iteration computes `h_r = row_base + (1 if r < row_rem else 0)`, builds
one row of tiles and advances `y` by `h_r`. -/
def buildGrid (im : GrayImg) (w h columns rows : ℕ) : ℕ → ℕ → ℕ → List (List Tile)
  | 0, _, _ => []
  | n + 1, r, y =>
    let hr := h / rows + if r < h % rows then 1 else 0
    buildRow im w columns y hr r columns 0 0
      :: buildGrid im w h columns rows n (r + 1) (y + hr)

/-- The grid construction of `split_grid_from_path` after the image is loaded
(image_splitter.py lines 29-52): both cursors start at `0`. -/
def split_grid (im : GrayImg) (columns rows : ℕ) : List (List Tile) :=
  buildGrid im im.w im.h columns rows rows 0 0

/-- `split_grid_from_path` (image_splitter.py lines 6-58).  `fs` is the
external filesystem/decoder collaborator: `fs path = some im` when the path
exists and decodes to `im`, `none` when `os.path.exists` is false.  `columns`
and `rows` are Python ints (`ℤ`).  The dimension check (line 25) runs before
the path lookup (line 27).  The `save_image` flag only triggers the
tile-export side channel (lines 54-56), which touches the filesystem but does
not alter the returned grid, so it is accepted and ignored here. -/
def split_grid_from_path (fs : String → Option GrayImg) (image_path : String)
    (columns rows : ℤ) (save_image : Bool) : Except SplitError (List (List Tile)) :=
  if columns < 1 ∨ rows < 1 then
    .error (.valueError ("columns and rows must be >= 1"))
  else
    match fs image_path with
    | none => .error (.fileNotFoundError ("Image not found: " ++ image_path))
    | some im => .ok (split_grid im columns.toNat rows.toNat)

/-- Width of column `c` in the split: `col_base + (1 if c < col_rem else 0)`
(image_splitter.py lines 32-33 and 45). -/
def colWidth (w columns c : ℕ) : ℕ :=
  w / columns + if c < w % columns then 1 else 0

/-- Height of row `r` in the split: `row_base + (1 if r < row_rem else 0)`
(image_splitter.py lines 34-35 and 41). -/
def rowHeight (h rows r : ℕ) : ℕ :=
  h / rows + if r < h % rows then 1 else 0

/-- The value of the cursor `x` when column `c` starts: the sum of the widths
of the previous columns. -/
def xOff (w columns c : ℕ) : ℕ := ∑ i in Finset.range c, colWidth w columns i

/-- The value of the cursor `y` when row `r` starts: the sum of the heights of
the previous rows. -/
def yOff (h rows r : ℕ) : ℕ := ∑ i in Finset.range r, rowHeight h rows i

/-- Closed form of the `box` entry of the grid cell at row `r`, column `c`. -/
def tileBox (w h columns rows r c : ℕ) : ℕ × ℕ × ℕ × ℕ :=
  (xOff w columns c, yOff h rows r, colWidth w columns c, rowHeight h rows r)

/-- Closed form of the grid cell at row `r`, column `c`. -/
def tileAt (im : GrayImg) (columns rows r c : ℕ) : Tile :=
  { image := im.crop (xOff im.w columns c) (yOff im.h rows r)
      (colWidth im.w columns c) (rowHeight im.h rows r)
    box := tileBox im.w im.h columns rows r c
    row := r
    col := c }

/-- Closed form of the whole grid: `rows × columns`, row-major. -/
def gridClosed (im : GrayImg) (columns rows : ℕ) : List (List Tile) :=
  (List.range rows).map (fun r => (List.range columns).map (fun c => tileAt im columns rows r c))

/-- Membership of the pixel `(px, py)` in a box `(x, y, bw, bh)`:
`x ≤ px < x + bw` and `y ≤ py < y + bh`. -/
def inBox (b : ℕ × ℕ × ℕ × ℕ) (px py : ℕ) : Prop :=
  b.1 ≤ px ∧ px < b.1 + b.2.2.1 ∧ b.2.1 ≤ py ∧ py < b.2.1 + b.2.2.2

/- ------------------------------------------------------------------ -/
/- Lemmas about the splitter.                                          -/
/- ------------------------------------------------------------------ -/

lemma colWidth_def (w columns c : ℕ) :
    w / columns + (if c < w % columns then 1 else 0) = colWidth w columns c := rfl

lemma rowHeight_def (h rows r : ℕ) :
    h / rows + (if r < h % rows then 1 else 0) = rowHeight h rows r := rfl

lemma xOff_succ (w columns c : ℕ) :
    xOff w columns (c + 1) = xOff w columns c + colWidth w columns c := by
  simp [xOff, Finset.sum_range_succ]

lemma yOff_succ (h rows r : ℕ) :
    yOff h rows (r + 1) = yOff h rows r + rowHeight h rows r := by
  simp [yOff, Finset.sum_range_succ]

lemma sum_range_mono (g : ℕ → ℕ) {m n : ℕ} (h : m ≤ n) :
    (∑ i in Finset.range m, g i) ≤ ∑ i in Finset.range n, g i :=
  Finset.sum_le_sum_of_subset (Finset.range_subset.mpr h)

lemma sum_range_exists_mem (g : ℕ → ℕ) (n p : ℕ)
    (hp : p < ∑ i in Finset.range n, g i) :
    ∃ c, c < n ∧ (∑ i in Finset.range c, g i) ≤ p ∧
      p < ∑ i in Finset.range (c + 1), g i := by
  induction n with
  | zero => simp at hp
  | succ n ih =>
    by_cases h : p < ∑ i in Finset.range n, g i
    · obtain ⟨c, hc, h1, h2⟩ := ih h
      exact ⟨c, Nat.lt_succ_of_lt hc, h1, h2⟩
    · exact ⟨n, Nat.lt_succ_self n, Nat.le_of_not_lt h, hp⟩

lemma sum_range_interval_unique (g : ℕ → ℕ) {c c' p : ℕ}
    (h1 : (∑ i in Finset.range c, g i) ≤ p)
    (h2 : p < ∑ i in Finset.range (c + 1), g i)
    (h1' : (∑ i in Finset.range c', g i) ≤ p)
    (h2' : p < ∑ i in Finset.range (c' + 1), g i) : c = c' := by
  rcases Nat.lt_trichotomy c c' with h | h | h
  · exfalso
    have : (∑ i in Finset.range (c + 1), g i) ≤ ∑ i in Finset.range c', g i :=
      sum_range_mono g h
    omega
  · exact h
  · exfalso
    have : (∑ i in Finset.range (c' + 1), g i) ≤ ∑ i in Finset.range c, g i :=
      sum_range_mono g h
    omega

/-- The remainder-distributed slice lengths sum back to the total:
`parts * (total / parts) + total % parts = total`. -/
lemma sum_slice (total parts : ℕ) (hp : 1 ≤ parts) :
    (∑ k in Finset.range parts, (total / parts + if k < total % parts then 1 else 0))
      = total := by
  have hm : total % parts < parts := Nat.mod_lt _ hp
  rw [Finset.sum_add_distrib, Finset.sum_const, Finset.card_range, smul_eq_mul]
  have hfilter : Finset.filter (fun k => k < total % parts) (Finset.range parts)
      = Finset.range (total % parts) := by
    ext x
    simp only [Finset.mem_filter, Finset.mem_range]
    omega
  have hsum : (∑ k in Finset.range parts, if k < total % parts then (1 : ℕ) else 0)
      = total % parts := by
    rw [Finset.sum_boole]
    rw [hfilter]
    simp
  rw [hsum]
  exact Nat.div_add_mod total parts

lemma sum_colWidth (w columns : ℕ) (hc : 1 ≤ columns) :
    (∑ c in Finset.range columns, colWidth w columns c) = w :=
  sum_slice w columns hc

lemma sum_rowHeight (h rows : ℕ) (hr : 1 ≤ rows) :
    (∑ r in Finset.range rows, rowHeight h rows r) = h :=
  sum_slice h rows hr

lemma xOff_columns (w columns : ℕ) (hc : 1 ≤ columns) :
    xOff w columns columns = w :=
  sum_colWidth w columns hc

lemma yOff_rows (h rows : ℕ) (hr : 1 ≤ rows) :
    yOff h rows rows = h :=
  sum_rowHeight h rows hr

/-- The inner loop started at column `c` with the cursor at `xOff c` produces
the closed-form tiles for columns `c, c+1, …, c+n-1`. -/
lemma buildRow_eq (im : GrayImg) (columns y hr r : ℕ) :
    ∀ (n c : ℕ),
      buildRow im im.w columns y hr r n c (xOff im.w columns c)
        = (List.range n).map (fun i =>
            { image := im.crop (xOff im.w columns (c + i)) y (colWidth im.w columns (c + i)) hr
              box := (xOff im.w columns (c + i), y, colWidth im.w columns (c + i), hr)
              row := r
              col := c + i }) := by
  intro n
  induction n with
  | zero => intro c; simp [buildRow]
  | succ n ih =>
    intro c
    rw [buildRow]
    simp only [colWidth_def]
    rw [← xOff_succ, ih (c + 1)]
    rw [List.range_succ_eq_map]
    simp only [List.map_cons, List.map_map]
    congr 1
    apply List.map_congr_left
    intro i _
    have h1 : c + 1 + i = c + (i + 1) := by omega
    simp [Function.comp, h1]

/-- The outer loop started at row `r` with the cursor at `yOff r` produces the
closed-form rows `r, r+1, …, r+n-1`. -/
lemma buildGrid_eq (im : GrayImg) (columns rows : ℕ) :
    ∀ (n r : ℕ),
      buildGrid im im.w im.h columns rows n r (yOff im.h rows r)
        = (List.range n).map (fun i =>
            (List.range columns).map (fun c => tileAt im columns rows (r + i) c)) := by
  intro n
  induction n with
  | zero => intro r; simp [buildGrid]
  | succ n ih =>
    intro r
    rw [buildGrid]
    simp only [rowHeight_def]
    rw [← yOff_succ, ih (r + 1)]
    rw [List.range_succ_eq_map]
    simp only [List.map_cons, List.map_map]
    congr 1
    · have h0 : xOff im.w columns 0 = 0 := by simp [xOff]
      have hrow := buildRow_eq im columns (yOff im.h rows r) (rowHeight im.h rows r) r columns 0
      rw [h0] at hrow
      rw [hrow]
      apply List.map_congr_left
      intro c _
      simp [tileAt, tileBox]
    · apply List.map_congr_left
      intro i _
      have h1 : r + 1 + i = r + (i + 1) := by omega
      simp [Function.comp, h1]

/-- `split_grid` equals its closed form. -/
lemma split_grid_eq (im : GrayImg) (columns rows : ℕ) :
    split_grid im columns rows = gridClosed im columns rows := by
  have h0 : yOff im.h rows 0 = 0 := by simp [yOff]
  have := buildGrid_eq im columns rows rows 0
  rw [h0] at this
  simp only [split_grid, gridClosed]
  rw [this]
  apply List.map_congr_left
  intro i _
  simp

/- ------------------------------------------------------------------ -/
/- ascii_matcher.py : data and operations.                             -/
/- ------------------------------------------------------------------ -/

/-- Python exceptions that ascii_matcher code can raise. -/
inductive PyExc where
  | zeroDivisionError
  | unboundLocalError
deriving DecidableEq

/-- `LESS = 1` (ascii_matcher.py line 6). -/
def LESS : ℤ := 1

/-- `MORE = 0` (ascii_matcher.py line 7). -/
def MORE : ℤ := 0

/-- `DEFAULT_CHARSET_LESS = list("@%#*+=-:. ")` (ascii_matcher.py line 10). -/
def DEFAULT_CHARSET_LESS : List Char := "@%#*+=-:. ".toList

/-- `DEFAULT_CHARSET_MORE` (ascii_matcher.py line 11).  The Python literal is
the 71-character string `@#WMB8&%$?*oahkbdpqwmZO0QCLJUYXzcvunxrjft` followed by
slash, backslash, pipe, parens, `1`, braces, brackets, `?-_+~<>i!lI;:,`,
double quote, caret, backtick, apostrophe, dot, space; the brace, backtick and
apostrophe characters are spelled via `Char.ofNat` codepoints here. -/
def DEFAULT_CHARSET_MORE : List Char :=
  "@#WMB8&%$?*oahkbdpqwmZO0QCLJUYXzcvunxrjft/\\|()1".toList
    ++ [Char.ofNat 123, Char.ofNat 125]
    ++ "[]?-_+~<>i!lI;:,\"^".toList
    ++ [Char.ofNat 96, Char.ofNat 39]
    ++ ". ".toList

/-- A 4-tuple `(left, top, right, bottom)` of pixel coordinates, as returned
by PIL `font.getbbox` and as used for ink extents. -/
structure PixBox where
  left : ℤ
  top : ℤ
  right : ℤ
  bottom : ℤ
deriving DecidableEq

/-- The external font collaborator used by `render_char_template`
(`_get_font`, PIL `ImageFont`): `bbox ch` is `font.getbbox(ch)`, and
`drawn ch u v` is the uint8 gray value that `draw.text` with `fill=0` on a
white canvas leaves at position `(u, v)` relative to the text origin (255
where the glyph leaves no ink). -/
structure FontModel where
  bbox : Char → PixBox
  drawn : Char → ℤ → ℤ → Fin 256

/-- The text-origin offsets computed by `render_char_template`
(ascii_matcher.py lines 35-39): `text_w = bbox[2] - bbox[0]`,
`text_h = bbox[3] - bbox[1]`, `x = (w - text_w) // 2`,
`y = (h - text_h) // 2` — Python `//` is floor division (`Int.fdiv`). -/
def text_offset (w h : ℕ) (bb : PixBox) : ℤ × ℤ :=
  let text_w := bb.right - bb.left
  let text_h := bb.bottom - bb.top
  (((w : ℤ) - text_w).fdiv 2, ((h : ℤ) - text_h).fdiv 2)

/-- The ink bounding box that `draw.text((x, y), ch, ...)` produces on the
canvas: per PIL text-anchor semantics the glyph's ink extent is
`font.getbbox(ch)` translated by the draw position `(x, y)`. -/
def ink_box (w h : ℕ) (bb : PixBox) : PixBox :=
  let o := text_offset w h bb
  ⟨o.1 + bb.left, o.2 + bb.top, o.1 + bb.right, o.2 + bb.bottom⟩

/-- The box `B` is centered (to within the one-pixel slack that integer
placement allows) on the center of a `w × h` canvas: the sums of opposite
box edges differ from `w` (resp. `h`) by at most 1. -/
def boxCenteredIn (w h : ℤ) (B : PixBox) : Prop :=
  (B.left + B.right - w).natAbs ≤ 1 ∧ (B.top + B.bottom - h).natAbs ≤ 1

/-- `render_char_template` (ascii_matcher.py lines 23-45): a white `w × h`
"L"-mode canvas receives the glyph drawn at the `text_offset` position; the
canvas pixel at row `i`, column `j` is therefore the font's drawn value at
`(j - x, i - y)` relative to the text origin.  The canvas is then normalized
and inverted (`arr = 1 - asarray(img)/255`). -/
def render_char_template (F : FontModel) (ch : Char) (size : ℕ × ℕ) : Arr :=
  let o := text_offset size.1 size.2 (F.bbox ch)
  normalizeInvert ⟨size.2, size.1, fun i j => F.drawn ch ((j : ℤ) - o.1) ((i : ℤ) - o.2)⟩

/-- Python dict assignment `templates[ch] = v` on an insertion-ordered dict
modelled as an association list: an existing key keeps its position and gets
the new value; a new key is appended. -/
def dictInsert (l : List (Char × Arr)) (k : Char) (v : Arr) : List (Char × Arr) :=
  if l.any (fun p => p.1 == k) then
    l.map (fun p => if p.1 == k then (k, v) else p)
  else
    l ++ [(k, v)]

/-- The template-building loop of `build_char_templates`
(ascii_matcher.py lines 61-63): `for ch in chars: templates[ch] = render_char_template(ch, tile_size, font_path)`. -/
def templatesDict (F : FontModel) (chars : List Char) (tile_size : ℕ × ℕ) : List (Char × Arr) :=
  chars.foldl (fun acc ch => dictInsert acc ch (render_char_template F ch tile_size)) []

/-- `build_char_templates` (ascii_matcher.py lines 48-64).  The Python default
for `chars_index` is `0`.  `chars_index is MORE` / `chars_index is LESS` are
CPython identity tests against the interned small ints `0` and `1`; since any
int of value 0 or 1 is interned, they coincide with numeric equality.  When
neither branch is taken, `chars` is never assigned and the `for ch in chars`
loop raises `UnboundLocalError`. -/
def build_char_templates (F : FontModel) (chars_index : ℤ) (tile_size : ℕ × ℕ) :
    Except PyExc (List (Char × Arr)) :=
  if chars_index = MORE then .ok (templatesDict F DEFAULT_CHARSET_MORE tile_size)
  else if chars_index = LESS then .ok (templatesDict F DEFAULT_CHARSET_LESS tile_size)
  else .error .unboundLocalError

/-- PIL `ImageOps.fit(im, size, Image.LANCZOS)` as called by
`_image_to_array` (ascii_matcher.py line 71).  Pillow's `fit` (external
collaborator) first computes `live_size_ratio = width / height` of the input
and then `output_ratio = size[0] / size[1]`; each is a Python float division
that raises `ZeroDivisionError` on a zero denominator.  Otherwise it crops
and resamples to exactly `size` with the external Lanczos resampler `R`,
whose pixel output we take as a parameter. -/
def imageOpsFit (R : GrayImg → ℕ × ℕ → ℕ → ℕ → Fin 256) (im : GrayImg)
    (size : ℕ × ℕ) : Except PyExc GrayImg :=
  if im.h = 0 then .error .zeroDivisionError
  else if size.2 = 0 then .error .zeroDivisionError
  else .ok ⟨size.2, size.1, R im size⟩

/-- `_image_to_array` (ascii_matcher.py lines 67-74): convert to "L" (already
grayscale in this model), `ImageOps.fit` to `size`, then
`arr = 1 - asarray(im)/255`. -/
def _image_to_array (R : GrayImg → ℕ × ℕ → ℕ → ℕ → Fin 256) (img : GrayImg)
    (size : ℕ × ℕ) : Except PyExc Arr :=
  (imageOpsFit R img size).map normalizeInvert

/-- The density map `_image_to_array` produces for a tile when the resample
succeeds: the resampled canvas has shape `(size[1], size[0])` and is
normalized and inverted. -/
def tileDensity (R : GrayImg → ℕ × ℕ → ℕ → ℕ → Fin 256) (img : GrayImg)
    (size : ℕ × ℕ) : Arr :=
  normalizeInvert ⟨size.2, size.1, R img size⟩

/-- `float((diff * diff).mean())` for `diff = tile_arr - temp`
(ascii_matcher.py lines 94-95): the mean of squared per-pixel differences,
taken over the shape of the tile array (numpy float32 modelled exactly
over `ℚ`). -/
def mse (a b : Arr) : ℚ :=
  (∑ i in Finset.range a.h, ∑ j in Finset.range a.w, (a.data i j - b.data i j) ^ 2)
    / (a.h * a.w)

/-- One iteration of the matching loop (ascii_matcher.py lines 90-98): skip
templates whose shape differs from the tile array's, otherwise keep the
template exactly when its score is strictly below the best so far.
`float("inf")` is modelled by `⊤ : WithTop ℚ`. -/
def matchStep (tile_arr : Arr) (best : Option Char × WithTop ℚ) (ct : Char × Arr) :
    Option Char × WithTop ℚ :=
  if ct.2.shape = tile_arr.shape then
    if ((mse tile_arr ct.2 : ℚ) : WithTop ℚ) < best.2 then
      (some ct.1, ((mse tile_arr ct.2 : ℚ) : WithTop ℚ))
    else best
  else best

/-- `match_tile_to_char` (ascii_matcher.py lines 77-102): resample and
normalize the tile (exceptions from `_image_to_array` propagate), run the
best-score loop over the templates dict in iteration order starting from
`(None, float("inf"))`, fall back to `" "` when no template was accepted, and
optionally replace `'.'` by a full block. -/
def match_tile_to_char (R : GrayImg → ℕ × ℕ → ℕ → ℕ → Fin 256) (tile : GrayImg)
    (templates : List (Char × Arr)) (size : ℕ × ℕ)
    (replace_dot_with_block : Bool) : Except PyExc (Char × WithTop ℚ) := do
  let tile_arr ← _image_to_array R tile size
  let best := templates.foldl (matchStep tile_arr) (none, (⊤ : WithTop ℚ))
  let ch := best.1.getD ' '
  let ch := if replace_dot_with_block && (ch == '.') then '█' else ch
  pure (ch, best.2)

/- ------------------------------------------------------------------ -/
/- main.py : aspect-locked row computation.                            -/
/- ------------------------------------------------------------------ -/

/-- Python `round` on the exact value: round half to even. -/
def pyRound (q : ℚ) : ℤ :=
  if q - Int.floor q < 1 / 2 then Int.floor q
  else if q - Int.floor q > 1 / 2 then Int.floor q + 1
  else if Int.floor q % 2 = 0 then Int.floor q else Int.floor q + 1

/-- The aspect-locked row computation of `image_to_ascii`
(main.py lines 45-50): `rows = max(1, int(round((h * cols * tile_w) / (w * tile_h))))`,
the float quotient modelled exactly over `ℚ`. -/
def image_to_ascii_rows (w h cols tile_w tile_h : ℕ) : ℤ :=
  max 1 (pyRound (((h : ℚ) * (cols : ℚ) * (tile_w : ℚ)) / ((w : ℚ) * (tile_h : ℚ))))

/-- Modelled from the spec: `rows = round((imageHeight × columns × tileWidth) /
(imageWidth × tileHeight))`, floored to a minimum of 1 (spec §4.5), for
comparison with the implementation's formula. -/
def specAspectRows (imageWidth imageHeight columns tileWidth tileHeight : ℕ) : ℤ :=
  max 1 (pyRound (((imageHeight : ℚ) * (columns : ℚ) * (tileWidth : ℚ))
    / ((imageWidth : ℚ) * (tileHeight : ℚ))))

/- ------------------------------------------------------------------ -/
/- Lemmas about the matcher.                                           -/
/- ------------------------------------------------------------------ -/

/-- If no template's shape matches the tile array's, the matching loop never
updates its state. -/
lemma foldl_matchStep_no_match (tile_arr : Arr) (l : List (Char × Arr))
    (h : ∀ ct ∈ l, ct.2.shape ≠ tile_arr.shape) :
    ∀ init, l.foldl (matchStep tile_arr) init = init := by
  induction l with
  | nil => intro init; rfl
  | cons ct l ih =>
    intro init
    rw [List.foldl_cons]
    have hct : ct.2.shape ≠ tile_arr.shape := h ct (List.mem_cons_self ct l)
    have hstep : matchStep tile_arr init ct = init := by
      simp [matchStep, hct]
    rw [hstep]
    exact ih (fun ct' hct' => h ct' (List.mem_cons_of_mem ct hct')) init

/-- Full characterization of the matching loop: starting from `init`, either
no shape-matching template beats `init`'s score strictly and the state is
unchanged, or the result is the first template attaining the minimum score
among shape-matching templates that is strictly below `init`'s score. -/
lemma foldl_matchStep_spec (tile_arr : Arr) :
    ∀ (l : List (Char × Arr)) (init : Option Char × WithTop ℚ),
      (l.foldl (matchStep tile_arr) init = init ∧
        ∀ ct ∈ l, ct.2.shape = tile_arr.shape →
          init.2 ≤ ((mse tile_arr ct.2 : ℚ) : WithTop ℚ))
      ∨ (∃ i, ∃ hi : i < l.length,
          (l.get ⟨i, hi⟩).2.shape = tile_arr.shape ∧
          l.foldl (matchStep tile_arr) init
            = (some (l.get ⟨i, hi⟩).1, ((mse tile_arr (l.get ⟨i, hi⟩).2 : ℚ) : WithTop ℚ)) ∧
          ((mse tile_arr (l.get ⟨i, hi⟩).2 : ℚ) : WithTop ℚ) < init.2 ∧
          (∀ j, ∀ hj : j < l.length, (l.get ⟨j, hj⟩).2.shape = tile_arr.shape →
            mse tile_arr (l.get ⟨i, hi⟩).2 ≤ mse tile_arr (l.get ⟨j, hj⟩).2) ∧
          (∀ j, ∀ hj : j < l.length, j < i → (l.get ⟨j, hj⟩).2.shape = tile_arr.shape →
            mse tile_arr (l.get ⟨i, hi⟩).2 < mse tile_arr (l.get ⟨j, hj⟩).2)) := by
  intro l
  induction l with
  | nil =>
    intro init
    left
    exact ⟨rfl, by simp⟩
  | cons ct l ih =>
    intro init
    rw [List.foldl_cons]
    by_cases hsh : ct.2.shape = tile_arr.shape
    · by_cases hlt : ((mse tile_arr ct.2 : ℚ) : WithTop ℚ) < init.2
      · -- the head strictly improves on init
        have hstep : matchStep tile_arr init ct
            = (some ct.1, ((mse tile_arr ct.2 : ℚ) : WithTop ℚ)) := by
          simp [matchStep, hsh, hlt]
        rw [hstep]
        rcases ih (some ct.1, ((mse tile_arr ct.2 : ℚ) : WithTop ℚ)) with
          ⟨heq, hall⟩ | ⟨i, hi, hvi, heq, hlt', hmin, hfirst⟩
        · right
          refine ⟨0, Nat.succ_pos _, ?_, ?_, ?_, ?_, ?_⟩
          · simpa using hsh
          · simpa using heq
          · simpa using hlt
          · intro j hj hvj
            match j with
            | 0 => simp
            | j + 1 =>
              have hj' : j < l.length := Nat.lt_of_succ_lt_succ hj
              have hvj' : (l.get ⟨j, hj'⟩).2.shape = tile_arr.shape := hvj
              have h2 : ((mse tile_arr ct.2 : ℚ) : WithTop ℚ)
                  ≤ ((mse tile_arr (l.get ⟨j, hj'⟩).2 : ℚ) : WithTop ℚ) :=
                hall (l.get ⟨j, hj'⟩) (List.get_mem l j hj') hvj'
              have h3 : mse tile_arr ct.2 ≤ mse tile_arr (l.get ⟨j, hj'⟩).2 := by
                exact_mod_cast h2
              exact h3
          · intro j hj hj0 hvj
            omega
        · right
          refine ⟨i + 1, Nat.succ_lt_succ hi, ?_, ?_, ?_, ?_, ?_⟩
          · simpa using hvi
          · simpa using heq
          · simp only [List.get_cons_succ]
            exact lt_trans hlt' hlt
          · intro j hj hvj
            match j with
            | 0 =>
              simp only [List.get_cons_zero, List.get_cons_succ]
              have : ((mse tile_arr (l.get ⟨i, hi⟩).2 : ℚ) : WithTop ℚ)
                  < ((mse tile_arr ct.2 : ℚ) : WithTop ℚ) := hlt'
              exact le_of_lt (by exact_mod_cast this)
            | j + 1 =>
              simp only [List.get_cons_succ] at hvj ⊢
              exact hmin j (Nat.lt_of_succ_lt_succ hj) hvj
          · intro j hj hjlt hvj
            match j with
            | 0 =>
              simp only [List.get_cons_zero, List.get_cons_succ]
              have : ((mse tile_arr (l.get ⟨i, hi⟩).2 : ℚ) : WithTop ℚ)
                  < ((mse tile_arr ct.2 : ℚ) : WithTop ℚ) := hlt'
              exact_mod_cast this
            | j + 1 =>
              simp only [List.get_cons_succ] at hvj ⊢
              exact hfirst j (Nat.lt_of_succ_lt_succ hj) (Nat.lt_of_succ_lt_succ hjlt) hvj
      · -- the head matches in shape but does not strictly improve
        have hstep : matchStep tile_arr init ct = init := by
          simp [matchStep, hsh, hlt]
        rw [hstep]
        rcases ih init with ⟨heq, hall⟩ | ⟨i, hi, hvi, heq, hlt', hmin, hfirst⟩
        · left
          refine ⟨heq, ?_⟩
          intro ct' hct' hvct'
          rcases List.mem_cons.mp hct' with rfl | hmem
          · exact le_of_not_lt hlt
          · exact hall ct' hmem hvct'
        · right
          refine ⟨i + 1, Nat.succ_lt_succ hi, ?_, ?_, ?_, ?_, ?_⟩
          · simpa using hvi
          · simpa using heq
          · simp only [List.get_cons_succ]
            exact hlt'
          · intro j hj hvj
            match j with
            | 0 =>
              simp only [List.get_cons_zero, List.get_cons_succ]
              have h2 : init.2 ≤ ((mse tile_arr ct.2 : ℚ) : WithTop ℚ) := le_of_not_lt hlt
              have h3 := lt_of_lt_of_le hlt' h2
              exact le_of_lt (by exact_mod_cast h3)
            | j + 1 =>
              simp only [List.get_cons_succ] at hvj ⊢
              exact hmin j (Nat.lt_of_succ_lt_succ hj) hvj
          · intro j hj hjlt hvj
            match j with
            | 0 =>
              simp only [List.get_cons_zero, List.get_cons_succ]
              have h2 : init.2 ≤ ((mse tile_arr ct.2 : ℚ) : WithTop ℚ) := le_of_not_lt hlt
              have h3 := lt_of_lt_of_le hlt' h2
              exact_mod_cast h3
            | j + 1 =>
              simp only [List.get_cons_succ] at hvj ⊢
              exact hfirst j (Nat.lt_of_succ_lt_succ hj) (Nat.lt_of_succ_lt_succ hjlt) hvj
    · -- the head is skipped: shape mismatch
      have hstep : matchStep tile_arr init ct = init := by
        simp [matchStep, hsh]
      rw [hstep]
      rcases ih init with ⟨heq, hall⟩ | ⟨i, hi, hvi, heq, hlt', hmin, hfirst⟩
      · left
        refine ⟨heq, ?_⟩
        intro ct' hct' hvct'
        rcases List.mem_cons.mp hct' with rfl | hmem
        · exact absurd hvct' hsh
        · exact hall ct' hmem hvct'
      · right
        refine ⟨i + 1, Nat.succ_lt_succ hi, ?_, ?_, ?_, ?_, ?_⟩
        · simpa using hvi
        · simpa using heq
        · simp only [List.get_cons_succ]
          exact hlt'
        · intro j hj hvj
          match j with
          | 0 =>
            have hvj' : ct.2.shape = tile_arr.shape := hvj
            exact absurd hvj' hsh
          | j + 1 =>
            simp only [List.get_cons_succ] at hvj ⊢
            exact hmin j (Nat.lt_of_succ_lt_succ hj) hvj
        · intro j hj hjlt hvj
          match j with
          | 0 =>
            have hvj' : ct.2.shape = tile_arr.shape := hvj
            exact absurd hvj' hsh
          | j + 1 =>
            simp only [List.get_cons_succ] at hvj ⊢
            exact hfirst j (Nat.lt_of_succ_lt_succ hj) (Nat.lt_of_succ_lt_succ hjlt) hvj

/- ------------------------------------------------------------------ -/
/- Concrete inputs used by witnesses and evaluations.                  -/
/- ------------------------------------------------------------------ -/

/-- A concrete path used to instantiate theorems. -/
def inputPath : String := "input.png"

/-- A concrete all-black image of width 4 and height 2. -/
def blackImg : GrayImg := ⟨2, 4, fun _ _ => 0⟩

/- ------------------------------------------------------------------ -/
/- Claim theorems.                                                     -/
/- ------------------------------------------------------------------ -/

/-- C7: `split_grid_from_path` fails with the invalid-dimensions `ValueError`
exactly when `columns < 1` or `rows < 1`, and this holds for every filesystem
state — so the failure is decided before the image path is looked up or the
image loaded; when the dimensions are valid but the path does not exist, it
fails with a `FileNotFoundError` whose message includes the offending path. -/
theorem split_grid_from_path_error_conditions
    (fs : String → Option GrayImg) (image_path : String) (columns rows : ℤ)
    (save_image : Bool) :
    (split_grid_from_path fs image_path columns rows save_image
        = .error (.valueError ("columns and rows must be >= 1"))
      ↔ (columns < 1 ∨ rows < 1))
    ∧ (1 ≤ columns → 1 ≤ rows → fs image_path = none →
        split_grid_from_path fs image_path columns rows save_image
          = .error (.fileNotFoundError ("Image not found: " ++ image_path))) := by
  unfold split_grid_from_path
  by_cases hdim : columns < 1 ∨ rows < 1
  · rw [if_pos hdim]
    refine ⟨⟨fun _ => hdim, fun _ => rfl⟩, ?_⟩
    intro hc hr _
    omega
  · rw [if_neg hdim]
    constructor
    · constructor
      · intro h
        cases hfs : fs image_path with
        | none => rw [hfs] at h; simp at h
        | some im => rw [hfs] at h; simp at h
      · intro h
        exact absurd h hdim
    · intro _ _ hfs
      rw [hfs]

/-- C7 witness: at a concrete filesystem with no files, `columns = 2`,
`rows = 3`, the missing-path failure carries the path in its message. -/
theorem split_grid_from_path_error_conditions_witness :
    split_grid_from_path (fun _ => none) inputPath 2 3 false
      = .error (.fileNotFoundError ("Image not found: " ++ inputPath)) :=
  (split_grid_from_path_error_conditions (fun _ => none) inputPath 2 3 false).2
    (by decide) (by decide) rfl

/-- C1: for every image and `columns ≥ 1`, `rows ≥ 1`, `split_grid_from_path`
returns the row-major `rows × columns` grid whose boxes follow the
accumulating `(x, y)` cursor from `(0, 0)`; the first `W % columns` columns
get width `W / columns + 1` and the rest `W / columns` (symmetrically for
rows); widths in every grid row sum to `W`, heights in every grid column sum
to `H`, no two tile boxes overlap, and the boxes exactly tile
`[0, W) × [0, H)`. -/
theorem split_grid_from_path_exact_tiling
    (fs : String → Option GrayImg) (image_path : String) (im : GrayImg)
    (columns rows : ℕ) (save_image : Bool)
    (hc : 1 ≤ columns) (hr : 1 ≤ rows) (hfs : fs image_path = some im) :
    split_grid_from_path fs image_path columns rows save_image
        = .ok (gridClosed im columns rows)
    ∧ (gridClosed im columns rows).length = rows
    ∧ (∀ row ∈ gridClosed im columns rows, row.length = columns)
    ∧ (∀ r c, (tileAt im columns rows r c).box = tileBox im.w im.h columns rows r c
        ∧ (tileAt im columns rows r c).row = r ∧ (tileAt im columns rows r c).col = c)
    ∧ (∀ c, c < columns →
        (c < im.w % columns → colWidth im.w columns c = im.w / columns + 1)
        ∧ (im.w % columns ≤ c → colWidth im.w columns c = im.w / columns))
    ∧ (∀ r, r < rows →
        (r < im.h % rows → rowHeight im.h rows r = im.h / rows + 1)
        ∧ (im.h % rows ≤ r → rowHeight im.h rows r = im.h / rows))
    ∧ (∑ c in Finset.range columns, colWidth im.w columns c) = im.w
    ∧ (∑ r in Finset.range rows, rowHeight im.h rows r) = im.h
    ∧ (∀ r c r' c', r < rows → c < columns → r' < rows → c' < columns →
        (r, c) ≠ (r', c') → ∀ px py,
          ¬(inBox (tileBox im.w im.h columns rows r c) px py
            ∧ inBox (tileBox im.w im.h columns rows r' c') px py))
    ∧ (∀ px py, px < im.w → py < im.h →
        ∃ r c, r < rows ∧ c < columns
          ∧ inBox (tileBox im.w im.h columns rows r c) px py)
    ∧ (∀ r c, r < rows → c < columns → ∀ px py,
        inBox (tileBox im.w im.h columns rows r c) px py → px < im.w ∧ py < im.h) := by
  refine ⟨?_, ?_, ?_, ?_, ?_, ?_, ?_, ?_, ?_, ?_, ?_⟩
  · unfold split_grid_from_path
    rw [if_neg (by omega), hfs]
    show Except.ok (split_grid im ((columns : ℤ)).toNat ((rows : ℤ)).toNat)
        = Except.ok (gridClosed im columns rows)
    have h1 : ((columns : ℤ)).toNat = columns := by omega
    have h2 : ((rows : ℤ)).toNat = rows := by omega
    rw [h1, h2, split_grid_eq]
  · simp [gridClosed]
  · intro row hrow
    simp only [gridClosed, List.mem_map] at hrow
    obtain ⟨r, _, hrow⟩ := hrow
    rw [← hrow]
    simp
  · intro r c
    exact ⟨rfl, rfl, rfl⟩
  · intro c _
    constructor
    · intro hlt
      unfold colWidth
      rw [if_pos hlt]
    · intro hge
      unfold colWidth
      rw [if_neg (by omega)]
      omega
  · intro r _
    constructor
    · intro hlt
      unfold rowHeight
      rw [if_pos hlt]
    · intro hge
      unfold rowHeight
      rw [if_neg (by omega)]
      omega
  · exact sum_colWidth im.w columns hc
  · exact sum_rowHeight im.h rows hr
  · intro r c r' c' hr1 hc1 hr2 hc2 hne px py hboth
    obtain ⟨hb1, hb2⟩ := hboth
    simp only [inBox, tileBox] at hb1 hb2
    obtain ⟨hx1, hx2, hy1, hy2⟩ := hb1
    obtain ⟨hx1', hx2', hy1', hy2'⟩ := hb2
    have hcx2 : px < ∑ i in Finset.range (c + 1), colWidth im.w columns i := by
      rw [Finset.sum_range_succ]
      exact hx2
    have hcx2' : px < ∑ i in Finset.range (c' + 1), colWidth im.w columns i := by
      rw [Finset.sum_range_succ]
      exact hx2'
    have hcy2 : py < ∑ i in Finset.range (r + 1), rowHeight im.h rows i := by
      rw [Finset.sum_range_succ]
      exact hy2
    have hcy2' : py < ∑ i in Finset.range (r' + 1), rowHeight im.h rows i := by
      rw [Finset.sum_range_succ]
      exact hy2'
    have hceq : c = c' :=
      sum_range_interval_unique (colWidth im.w columns) hx1 hcx2 hx1' hcx2'
    have hreq : r = r' :=
      sum_range_interval_unique (rowHeight im.h rows) hy1 hcy2 hy1' hcy2'
    exact hne (by rw [hceq, hreq])
  · intro px py hpx hpy
    have hx : px < ∑ i in Finset.range columns, colWidth im.w columns i := by
      rw [sum_colWidth im.w columns hc]
      exact hpx
    have hy : py < ∑ i in Finset.range rows, rowHeight im.h rows i := by
      rw [sum_rowHeight im.h rows hr]
      exact hpy
    obtain ⟨c, hcn, hc1, hc2⟩ := sum_range_exists_mem (colWidth im.w columns) columns px hx
    obtain ⟨r, hrn, hr1, hr2⟩ := sum_range_exists_mem (rowHeight im.h rows) rows py hy
    refine ⟨r, c, hrn, hcn, ?_⟩
    simp only [inBox, tileBox]
    rw [Finset.sum_range_succ] at hc2 hr2
    exact ⟨hc1, hc2, hr1, hr2⟩
  · intro r c hrn hcn px py hbox
    simp only [inBox, tileBox] at hbox
    obtain ⟨hx1, hx2, hy1, hy2⟩ := hbox
    constructor
    · have h1 : px < ∑ i in Finset.range (c + 1), colWidth im.w columns i := by
        rw [Finset.sum_range_succ]
        exact hx2
      have h2 : (∑ i in Finset.range (c + 1), colWidth im.w columns i)
          ≤ ∑ i in Finset.range columns, colWidth im.w columns i :=
        sum_range_mono _ (by omega)
      rw [sum_colWidth im.w columns hc] at h2
      omega
    · have h1 : py < ∑ i in Finset.range (r + 1), rowHeight im.h rows i := by
        rw [Finset.sum_range_succ]
        exact hy2
      have h2 : (∑ i in Finset.range (r + 1), rowHeight im.h rows i)
          ≤ ∑ i in Finset.range rows, rowHeight im.h rows i :=
        sum_range_mono _ (by omega)
      rw [sum_rowHeight im.h rows hr] at h2
      omega

/-- C1 witness: the tiling theorem applied to the concrete 4×2 black image
with `columns = 2`, `rows = 2`. -/
theorem split_grid_from_path_exact_tiling_witness :
    (1 : ℕ) ≤ 2
    ∧ split_grid_from_path (fun _ => some blackImg) inputPath
        (((2 : ℕ) : ℤ)) (((2 : ℕ) : ℤ)) false = .ok (gridClosed blackImg 2 2) :=
  ⟨by decide,
    (split_grid_from_path_exact_tiling (fun _ => some blackImg) inputPath blackImg
      2 2 false (by decide) (by decide) rfl).1⟩

/-- A constant external resampler used to instantiate theorems. -/
def constRaster : GrayImg → ℕ × ℕ → ℕ → ℕ → Fin 256 := fun _ _ _ _ => 0

/-- A concrete 1×1 black image. -/
def unitImg : GrayImg := ⟨1, 1, fun _ _ => 0⟩

/-- A concrete 1×1 all-zero density map. -/
def unitArr : Arr := ⟨1, 1, fun _ _ => 0⟩

/-- A concrete 2×2 all-zero density map (shape different from 1×1). -/
def twoArr : Arr := ⟨2, 2, fun _ _ => 0⟩

/-- When the tile and requested size are non-degenerate, `match_tile_to_char`
reduces to the pure best-score loop over the tile's density map (with the
`replace_dot_with_block=False` default leaving the character unchanged). -/
lemma match_tile_to_char_red (R : GrayImg → ℕ × ℕ → ℕ → ℕ → Fin 256)
    (tile : GrayImg) (templates : List (Char × Arr)) (size : ℕ × ℕ)
    (hh : tile.h ≠ 0) (hs : size.2 ≠ 0) :
    match_tile_to_char R tile templates size false
      = .ok ((templates.foldl (matchStep (tileDensity R tile size))
              (none, (⊤ : WithTop ℚ))).1.getD ' ',
             (templates.foldl (matchStep (tileDensity R tile size))
              (none, (⊤ : WithTop ℚ))).2) := by
  unfold match_tile_to_char _image_to_array imageOpsFit tileDensity
  rw [if_neg hh, if_neg hs]
  rfl

/-- C3: for every tile and template set containing at least one template whose
density-map dimensions equal the resampled tile size, `match_tile_to_char`
returns a character whose template attains the minimum mean-squared error
against the tile's density map among the templates of matching dimensions,
together with that score; and every shape-matching template appearing
strictly earlier in the iteration order scores strictly worse, so among equal
minima the first-encountered character wins. -/
theorem match_tile_to_char_min_mse_first
    (R : GrayImg → ℕ × ℕ → ℕ → ℕ → Fin 256) (tile : GrayImg)
    (templates : List (Char × Arr)) (size : ℕ × ℕ)
    (hh : tile.h ≠ 0) (hs : size.2 ≠ 0)
    (hex : ∃ ct ∈ templates, ct.2.shape = (size.2, size.1)) :
    ∃ i, ∃ hi : i < templates.length,
      (templates.get ⟨i, hi⟩).2.shape = (size.2, size.1)
      ∧ match_tile_to_char R tile templates size false
          = .ok ((templates.get ⟨i, hi⟩).1,
              ((mse (tileDensity R tile size) (templates.get ⟨i, hi⟩).2 : ℚ) : WithTop ℚ))
      ∧ (∀ j, ∀ hj : j < templates.length,
          (templates.get ⟨j, hj⟩).2.shape = (size.2, size.1) →
          mse (tileDensity R tile size) (templates.get ⟨i, hi⟩).2
            ≤ mse (tileDensity R tile size) (templates.get ⟨j, hj⟩).2)
      ∧ (∀ j, ∀ hj : j < templates.length, j < i →
          (templates.get ⟨j, hj⟩).2.shape = (size.2, size.1) →
          mse (tileDensity R tile size) (templates.get ⟨i, hi⟩).2
            < mse (tileDensity R tile size) (templates.get ⟨j, hj⟩).2) := by
  rcases foldl_matchStep_spec (tileDensity R tile size) templates (none, ⊤) with
    ⟨heq, hall⟩ | ⟨i, hi, hvi, heq, hlt', hmin, hfirst⟩
  · exfalso
    obtain ⟨ct, hmem, hct⟩ := hex
    have hv : ct.2.shape = (tileDensity R tile size).shape := hct
    have htop : (⊤ : WithTop ℚ) ≤ ((mse (tileDensity R tile size) ct.2 : ℚ) : WithTop ℚ) :=
      hall ct hmem hv
    exact (WithTop.not_top_le_coe _) htop
  · refine ⟨i, hi, ?_, ?_, ?_, ?_⟩
    · exact hvi
    · rw [match_tile_to_char_red R tile templates size hh hs, heq]
      rfl
    · intro j hj hvj
      exact hmin j hj hvj
    · intro j hj hjlt hvj
      exact hfirst j hj hjlt hvj

/-- C3 witness: the matching theorem applied to a concrete 1×1 tile and the
one-element template set `[(' ', unitArr)]` at size `(1, 1)`. -/
theorem match_tile_to_char_min_mse_first_witness :
    ∃ i, ∃ hi : i < [(' ', unitArr)].length,
      (([(' ', unitArr)]).get ⟨i, hi⟩).2.shape = ((1 : ℕ), (1 : ℕ))
      ∧ match_tile_to_char constRaster unitImg [(' ', unitArr)] (1, 1) false
          = .ok ((([(' ', unitArr)]).get ⟨i, hi⟩).1,
              ((mse (tileDensity constRaster unitImg (1, 1))
                  (([(' ', unitArr)]).get ⟨i, hi⟩).2 : ℚ) : WithTop ℚ))
      ∧ (∀ j, ∀ hj : j < [(' ', unitArr)].length,
          (([(' ', unitArr)]).get ⟨j, hj⟩).2.shape = ((1 : ℕ), (1 : ℕ)) →
          mse (tileDensity constRaster unitImg (1, 1)) (([(' ', unitArr)]).get ⟨i, hi⟩).2
            ≤ mse (tileDensity constRaster unitImg (1, 1)) (([(' ', unitArr)]).get ⟨j, hj⟩).2)
      ∧ (∀ j, ∀ hj : j < [(' ', unitArr)].length, j < i →
          (([(' ', unitArr)]).get ⟨j, hj⟩).2.shape = ((1 : ℕ), (1 : ℕ)) →
          mse (tileDensity constRaster unitImg (1, 1)) (([(' ', unitArr)]).get ⟨i, hi⟩).2
            < mse (tileDensity constRaster unitImg (1, 1)) (([(' ', unitArr)]).get ⟨j, hj⟩).2) :=
  match_tile_to_char_min_mse_first constRaster unitImg [(' ', unitArr)] (1, 1)
    (by decide) (by decide) ⟨(' ', unitArr), List.mem_cons_self _ _, rfl⟩

/-- C8: when no template's density-map dimensions equal the tile's resampled
dimensions, `match_tile_to_char` completes without raising and returns
exactly the single space character paired with the infinite score. -/
theorem match_tile_to_char_no_shape_match
    (R : GrayImg → ℕ × ℕ → ℕ → ℕ → Fin 256) (tile : GrayImg)
    (templates : List (Char × Arr)) (size : ℕ × ℕ)
    (hh : tile.h ≠ 0) (hs : size.2 ≠ 0)
    (hnone : ∀ ct ∈ templates, ct.2.shape ≠ (size.2, size.1)) :
    match_tile_to_char R tile templates size false = .ok (' ', (⊤ : WithTop ℚ)) := by
  rw [match_tile_to_char_red R tile templates size hh hs]
  have hnone' : ∀ ct ∈ templates, ct.2.shape ≠ (tileDensity R tile size).shape :=
    fun ct hm => hnone ct hm
  rw [foldl_matchStep_no_match (tileDensity R tile size) templates hnone' (none, ⊤)]
  rfl

/-- C8 witness: a concrete 1×1 tile against a template set whose only
template has shape 2×2. -/
theorem match_tile_to_char_no_shape_match_witness :
    match_tile_to_char constRaster unitImg [('a', twoArr)] (1, 1) false
      = .ok (' ', (⊤ : WithTop ℚ)) :=
  match_tile_to_char_no_shape_match constRaster unitImg [('a', twoArr)] (1, 1)
    (by decide) (by decide)
    (by
      intro ct hm
      rcases List.mem_singleton.mp hm with rfl
      decide)

/-- Values produced by the shared normalize-and-invert step lie in `[0, 1]`. -/
lemma normalizeInvert_bounds (im : GrayImg) (i j : ℕ) :
    0 ≤ (normalizeInvert im).data i j ∧ (normalizeInvert im).data i j ≤ 1 := by
  show 0 ≤ 1 - ((im.px i j : ℕ) : ℚ) / 255 ∧ 1 - ((im.px i j : ℕ) : ℚ) / 255 ≤ 1
  constructor
  · rw [sub_nonneg]
    have hv : ((im.px i j : ℕ) : ℚ) ≤ 255 := by
      have hlt := (im.px i j).isLt
      exact_mod_cast Nat.lt_succ_iff.mp hlt
    rw [div_le_one (by norm_num : (0 : ℚ) < 255)]
    exact hv
  · have h0 : (0 : ℚ) ≤ ((im.px i j : ℕ) : ℚ) / 255 := by positivity
    linarith

/-- C6: every value of every density map — glyph templates from
`render_char_template` and tile arrays from `_image_to_array` — lies in
`[0.0, 1.0]`, with `density = 1 - gray/255`, so a fully black pixel (gray 0)
has density 1 (maximum ink) and a fully white pixel (gray 255) has
density 0 (background). -/
theorem density_maps_in_unit_interval :
    (∀ (im : GrayImg) (i j : ℕ),
      0 ≤ (normalizeInvert im).data i j ∧ (normalizeInvert im).data i j ≤ 1
      ∧ ((im.px i j : ℕ) = 0 → (normalizeInvert im).data i j = 1)
      ∧ ((im.px i j : ℕ) = 255 → (normalizeInvert im).data i j = 0))
    ∧ (∀ (F : FontModel) (ch : Char) (size : ℕ × ℕ) (i j : ℕ),
      0 ≤ (render_char_template F ch size).data i j
      ∧ (render_char_template F ch size).data i j ≤ 1)
    ∧ (∀ (R : GrayImg → ℕ × ℕ → ℕ → ℕ → Fin 256) (img : GrayImg)
        (size : ℕ × ℕ) (a : Arr),
      _image_to_array R img size = .ok a →
      ∀ i j, 0 ≤ a.data i j ∧ a.data i j ≤ 1) := by
  refine ⟨?_, ?_, ?_⟩
  · intro im i j
    refine ⟨(normalizeInvert_bounds im i j).1, (normalizeInvert_bounds im i j).2, ?_, ?_⟩
    · intro h
      show 1 - ((im.px i j : ℕ) : ℚ) / 255 = 1
      rw [h]
      norm_num
    · intro h
      show 1 - ((im.px i j : ℕ) : ℚ) / 255 = 0
      rw [h]
      norm_num
  · intro F ch size i j
    exact ⟨(normalizeInvert_bounds _ i j).1, (normalizeInvert_bounds _ i j).2⟩
  · intro R img size a ha i j
    unfold _image_to_array imageOpsFit at ha
    by_cases h1 : img.h = 0
    · rw [if_pos h1] at ha
      simp [Except.map] at ha
    · rw [if_neg h1] at ha
      by_cases h2 : size.2 = 0
      · rw [if_pos h2] at ha
        simp [Except.map] at ha
      · rw [if_neg h2] at ha
        simp only [Except.map] at ha
        have ha' : normalizeInvert ⟨size.2, size.1, R img size⟩ = a := by
          cases ha
          rfl
        rw [← ha']
        exact ⟨(normalizeInvert_bounds _ i j).1, (normalizeInvert_bounds _ i j).2⟩

/-- C6 witness: the range theorem applied to the concrete density map that
`_image_to_array` produces for the 1×1 black tile. -/
theorem density_maps_in_unit_interval_witness :
    0 ≤ (tileDensity constRaster unitImg (1, 1)).data 0 0
    ∧ (tileDensity constRaster unitImg (1, 1)).data 0 0 ≤ 1 :=
  density_maps_in_unit_interval.2.2 constRaster unitImg (1, 1)
    (tileDensity constRaster unitImg (1, 1)) rfl 0 0

/-- The ink box actually lands centered on the canvas center translated by
the bbox origin offset `(left, top)` — not on the canvas center itself. -/
lemma ink_box_centered_at_shifted_center (w h : ℕ) (bb : PixBox) :
    boxCenteredIn ((w : ℤ) + 2 * bb.left) ((h : ℤ) + 2 * bb.top) (ink_box w h bb) := by
  obtain ⟨l, t, r, b⟩ := bb
  unfold boxCenteredIn ink_box text_offset
  simp only []
  have hf1 : ((w : ℤ) - (r - l)).fdiv 2 = ((w : ℤ) - (r - l)) / 2 :=
    Int.fdiv_eq_ediv _ (by norm_num)
  have hf2 : ((h : ℤ) - (b - t)).fdiv 2 = ((h : ℤ) - (b - t)) / 2 :=
    Int.fdiv_eq_ediv _ (by norm_num)
  rw [hf1, hf2]
  constructor
  · omega
  · omega

/-- C5: `render_char_template` computes the draw position from the bbox's
width and height only and anchors the text origin there, so the glyph's ink
bounding box is translated by the bbox's `(left, top)` origin offset and its
center misses the canvas center whenever that offset is nonzero.  Concrete
failing evaluation: on the default 8×16 canvas, a glyph with
`font.getbbox = (0, 6, 7, 13)` is drawn with ink box `(0, 10, 7, 17)`, whose
vertical edge sum 27 differs from the canvas height 16 by 11 — far beyond
the one-pixel slack of floor division — while the box is centered on the
canvas center shifted by `(left, top) = (0, 6)`. -/
theorem ink_box_not_centered_concrete :
    ink_box 8 16 ⟨0, 6, 7, 13⟩ = ⟨0, 10, 7, 17⟩
    ∧ ¬ boxCenteredIn 8 16 (ink_box 8 16 ⟨0, 6, 7, 13⟩)
    ∧ boxCenteredIn (8 + 2 * 0) (16 + 2 * 6) (ink_box 8 16 ⟨0, 6, 7, 13⟩) := by
  refine ⟨by decide, ?_, ?_⟩
  · unfold boxCenteredIn ink_box text_offset
    decide
  · unfold boxCenteredIn ink_box text_offset
    decide

/-- C4: with `rows = 3` exceeding the height 2 of the concrete 4×2 image, the
grid's third row consists of zero-height tiles, and matching any of them
raises `ZeroDivisionError` inside PIL's `ImageOps.fit` (the `width / height`
ratio of the zero-height crop) — the pipeline does not complete, and no
all-background density map is produced. -/
theorem zero_height_tile_zero_division
    (R : GrayImg → ℕ × ℕ → ℕ → ℕ → Fin 256) (templates : List (Char × Arr))
    (rdb : Bool) :
    split_grid_from_path (fun _ => some blackImg) inputPath 2 3 false
        = .ok (split_grid blackImg 2 3)
    ∧ ((split_grid blackImg 2 3).getD 2 []).length = 2
    ∧ ∀ cell ∈ (split_grid blackImg 2 3).getD 2 [],
        cell.image.h = 0
        ∧ match_tile_to_char R cell.image templates (8, 16) rdb
            = .error .zeroDivisionError := by
  refine ⟨rfl, rfl, ?_⟩
  intro cell hmem
  have hred : (split_grid blackImg 2 3).getD 2 []
      = [⟨blackImg.crop 0 2 2 0, (0, 2, 2, 0), 2, 0⟩,
         ⟨blackImg.crop 2 2 2 0, (2, 2, 2, 0), 2, 1⟩] := rfl
  rw [hred] at hmem
  rcases List.mem_cons.mp hmem with rfl | hmem2
  · exact ⟨rfl, rfl⟩
  · rcases List.mem_singleton.mp hmem2 with rfl
    exact ⟨rfl, rfl⟩

/-- A concrete font model used to instantiate theorems. -/
def constFont : FontModel := ⟨fun _ => ⟨0, 0, 1, 1⟩, fun _ _ _ => 0⟩

/-- The key sequence of the template dict built from `DEFAULT_CHARSET_MORE`:
the 71-character alphabet with its duplicate `'?'` collapsed onto the first
occurrence (Python dict semantics), leaving 70 keys. -/
def moreTemplateKeys : List Char :=
  "@#WMB8&%$?*oahkbdpqwmZO0QCLJUYXzcvunxrjft/\\|()1".toList
    ++ [Char.ofNat 123, Char.ofNat 125]
    ++ "[]-_+~<>i!lI;:,\"^".toList
    ++ [Char.ofNat 96, Char.ofNat 39]
    ++ ". ".toList

/-- C2 counterexample: called with its default `chars_index = 0`,
`build_char_templates` builds the template dict over the 71-character
`DEFAULT_CHARSET_MORE` alphabet (70 distinct keys), not the compact
10-character `DEFAULT_CHARSET_LESS` set. -/
theorem build_char_templates_default_not_compact :
    (build_char_templates constFont 0 (8, 24)).map (List.map Prod.fst)
        = .ok moreTemplateKeys
    ∧ (build_char_templates constFont 0 (8, 24)).map (List.map Prod.fst)
        ≠ .ok DEFAULT_CHARSET_LESS
    ∧ moreTemplateKeys.length = 70
    ∧ DEFAULT_CHARSET_LESS.length = 10 := by
  have h1 : (build_char_templates constFont 0 (8, 24)).map (List.map Prod.fst)
      = .ok moreTemplateKeys := rfl
  refine ⟨h1, ?_, by decide, by decide⟩
  intro hcon
  rw [h1] at hcon
  have h2 : moreTemplateKeys = DEFAULT_CHARSET_LESS := Except.ok.inj hcon
  exact absurd h2 (by decide)

/-- C2 amended: when no alphabet index is supplied (the Python default
`chars_index = 0`, which is `MORE`), the template set built is the larger
71-character alphabet, not the compact 10-character set; the compact set is
selected by `chars_index = 1` (`LESS`). -/
theorem build_char_templates_default_selects_larger
    (F : FontModel) (tile_size : ℕ × ℕ) :
    build_char_templates F 0 tile_size
        = .ok (templatesDict F DEFAULT_CHARSET_MORE tile_size)
    ∧ build_char_templates F 1 tile_size
        = .ok (templatesDict F DEFAULT_CHARSET_LESS tile_size)
    ∧ DEFAULT_CHARSET_MORE.length = 71
    ∧ DEFAULT_CHARSET_LESS.length = 10
    ∧ DEFAULT_CHARSET_MORE ≠ DEFAULT_CHARSET_LESS := by
  refine ⟨?_, ?_, by decide, by decide, by decide⟩
  · unfold build_char_templates
    rw [if_pos (show (0 : ℤ) = MORE from rfl)]
  · unfold build_char_templates
    rw [if_neg (show ¬((1 : ℤ) = MORE) by decide),
      if_pos (show (1 : ℤ) = LESS from rfl)]

/-- C10: for every `chars_index` other than `0` (`MORE`) and `1` (`LESS`) —
in particular `-1`, which the command-line interface accepts — no alphabet is
ever selected and `build_char_templates` raises `UnboundLocalError` instead
of falling back to any default. -/
theorem build_char_templates_unbound_local
    (F : FontModel) (chars_index : ℤ) (tile_size : ℕ × ℕ)
    (h0 : chars_index ≠ 0) (h1 : chars_index ≠ 1) :
    build_char_templates F chars_index tile_size = .error .unboundLocalError := by
  unfold build_char_templates
  rw [if_neg (show ¬(chars_index = MORE) from h0),
    if_neg (show ¬(chars_index = LESS) from h1)]

/-- C10 witness: the CLI value `-1` (documented there as selecting the
smaller set) raises `UnboundLocalError`. -/
theorem build_char_templates_unbound_local_witness :
    build_char_templates constFont (-1) (8, 24) = .error .unboundLocalError :=
  build_char_templates_unbound_local constFont (-1) (8, 24) (by decide) (by decide)

/-- C9 counterexample: at the spec's concrete instance
`imageWidth = 200, imageHeight = 100, columns = 80, tileSize = (8, 16)` the
implementation computes `rows = round(64000 / 3200) = 20`, not 32. -/
theorem aspect_rows_concrete_not_32 :
    image_to_ascii_rows 200 100 80 8 16 = 20 ∧ (20 : ℤ) ≠ 32 := by
  constructor
  · norm_num [image_to_ascii_rows, pyRound]
  · decide

/-- C9 amended: the implementation's aspect-locked row count agrees with the
spec's formula `max 1 (round(h·cols·tile_w / (w·tile_h)))` at every input,
and at the spec's concrete instance the value is 20 (the spec's stated value
32 is an arithmetic slip). -/
theorem aspect_rows_formula_and_value :
    (∀ w h cols tile_w tile_h : ℕ,
      image_to_ascii_rows w h cols tile_w tile_h = specAspectRows w h cols tile_w tile_h)
    ∧ image_to_ascii_rows 200 100 80 8 16 = 20 := by
  constructor
  · intro w h cols tile_w tile_h
    rfl
  · norm_num [image_to_ascii_rows, pyRound]
